import Mathlib

/-!
Verification of the plsreadme anchor / comment subsystem.

Strings are modelled as lists of characters (`Str := List Char`), so that the
character-level replacement pipelines of the source are directly executable and
provable.  JavaScript string indices/lengths are UTF-16 code units; we model
them as character counts, which agrees on the Basic Multilingual Plane.
-/

abbrev Str := List Char

/-- The JavaScript `\s` character class (WhiteSpace and LineTerminator code
points), used by `trim()` and by the `\s` occurrences in the regexes of
`worker/routes/docs.ts`. -/
def jsWs (c : Char) : Bool :=
  c.toNat = 9 || c.toNat = 10 || c.toNat = 11 || c.toNat = 12 || c.toNat = 13 ||
  c.toNat = 32 || c.toNat = 0xA0 || c.toNat = 0x1680 ||
  (0x2000 ≤ c.toNat && c.toNat ≤ 0x200A) ||
  c.toNat = 0x2028 || c.toNat = 0x2029 || c.toNat = 0x202F ||
  c.toNat = 0x205F || c.toNat = 0x3000 || c.toNat = 0xFEFF

/-- JavaScript `String.prototype.trim`. -/
def jsTrim (s : Str) : Str :=
  ((s.dropWhile jsWs).reverse.dropWhile jsWs).reverse

/-- `.replace(/\s+/g, r)` for a one-character replacement `r`: every maximal
run of whitespace becomes the single character `r`.  The boolean flag records
whether the previous character was part of a whitespace run. -/
def collapseWsWith (r : Char) : Bool → Str → Str
  | _, [] => []
  | inRun, c :: cs =>
    if jsWs c then
      if inRun then collapseWsWith r true cs else r :: collapseWsWith r true cs
    else c :: collapseWsWith r false cs

/-- The hyphen-run replace step of the slugifier: collapse every run of
hyphens to a single hyphen. -/
def collapseHyphens : Bool → Str → Str
  | _, [] => []
  | inRun, c :: cs =>
    if c = '-' then
      if inRun then collapseHyphens true cs else '-' :: collapseHyphens true cs
    else c :: collapseHyphens false cs

/-- One alternative of `.replace(/^-|-$/g, "")`: drop a single leading
hyphen. -/
def dropLeadingHyphen : Str → Str
  | '-' :: rest => rest
  | s => s

/-- `.replace(/^-|-$/g, "")`: the anchored global regex removes at most one
leading and at most one trailing hyphen. -/
def trimHyphens (s : Str) : Str :=
  (dropLeadingHyphen (dropLeadingHyphen s).reverse).reverse

/-- The character class `[a-z0-9#]` of the entity regex, with the `i` flag. -/
def isEntityChar (c : Char) : Bool :=
  ('a' ≤ c && c ≤ 'z') || ('A' ≤ c && c ≤ 'Z') || ('0' ≤ c && c ≤ '9') || c = '#'

/-- After at least one entity character has been consumed: keep consuming
entity characters until a `;` closes the match. -/
def entityTail : Str → Option Str
  | [] => none
  | c :: cs => if c = ';' then some cs else if isEntityChar c then entityTail cs else none

/-- Try to match `[a-z0-9#]+;` (the part of `/&[a-z0-9#]+;/gi` after the `&`);
on success return the remainder of the string after the match. -/
def entityAfterAmp : Str → Option Str
  | [] => none
  | c :: cs => if isEntityChar c then entityTail cs else none

/-- `.replace(/&[a-z0-9#]+;/gi, " ")`, fuelled so that the recursion is
structural; `stripEntities` supplies enough fuel for the whole string. -/
def stripEntitiesF : Nat → Str → Str
  | 0, s => s
  | _, [] => []
  | f + 1, c :: cs =>
    if c = '&' then
      match entityAfterAmp cs with
      | some rest => ' ' :: stripEntitiesF f rest
      | none => c :: stripEntitiesF f cs
    else c :: stripEntitiesF f cs

def stripEntities (s : Str) : Str := stripEntitiesF s.length s

/-- After a `<`: consume `[^>]*` and the closing `>`; return the remainder. -/
def tagClose : Str → Option Str
  | [] => none
  | c :: cs => if c = '>' then some cs else tagClose cs

/-- `.replace(/<[^>]*>/g, " ")` (tag stripping in `addStableAnchorIds`),
fuelled like `stripEntitiesF`. -/
def stripTagsF : Nat → Str → Str
  | 0, s => s
  | _, [] => []
  | f + 1, c :: cs =>
    if c = '<' then
      match tagClose cs with
      | some rest => ' ' :: stripTagsF f rest
      | none => c :: stripTagsF f cs
    else c :: stripTagsF f cs

def stripTags (s : Str) : Str := stripTagsF s.length s

/-- The characters kept by `.replace(/[^a-z0-9\s-]/g, " ")` other than
whitespace. -/
def isSlugKeep (c : Char) : Bool :=
  ('a' ≤ c && c ≤ 'z') || ('0' ≤ c && c ≤ '9') || c = '-'

/-- `.replace(/[^a-z0-9\s-]/g, " ")`. -/
def punctToSpace (s : Str) : Str :=
  s.map (fun c => if isSlugKeep c || jsWs c then c else ' ')

/-- Decimal digits of a positive number, fuelled (mirrors the template
interpolation of a JavaScript number). -/
def natToCharsF : Nat → Nat → Str
  | 0, _ => []
  | f + 1, n => if n = 0 then [] else natToCharsF f (n / 10) ++ [Nat.digitChar (n % 10)]

/-- Decimal representation of a natural number as characters. -/
def natToChars (n : Nat) : Str := if n = 0 then ['0'] else natToCharsF n n

/-- `slugifyAnchorText` from `worker/routes/docs.ts` without the final
fallback: lowercase, drop HTML entities, replace characters outside
`[a-z0-9\s-]` by spaces, turn whitespace runs into hyphens, collapse hyphen
runs, and trim one leading/trailing hyphen.  `Char.toLower` models
`toLowerCase()` (they agree on ASCII, and other characters are erased to
spaces by the following step either way). -/
def slugifyStripped (text : Str) : Str :=
  trimHyphens (collapseHyphens false
    (collapseWsWith '-' false (punctToSpace (stripEntities (text.map Char.toLower)))))

/-- `slugifyAnchorText`: the normalized slug, or the fixed token `node` when
the normalization comes out empty. -/
def slugifyAnchorText (text : Str) : Str :=
  let stripped := slugifyStripped text
  if stripped = [] then "node".data else stripped

/-- Is `c` the character `"` or `'`? (the `["']` class of the id regex). -/
def isQuoteChar (c : Char) : Bool := c.toNat = 34 || c.toNat = 39

/-- Is some quote character reachable through non-quote characters?  This is
exactly when `[^"']*["']` matches at this position. -/
def quoteReachable : Str → Bool
  | [] => false
  | c :: cs => if isQuoteChar c then true else quoteReachable cs

/-- Match `[^"']+["']` at this position (at least one non-quote character,
then a quote). -/
def matchValueBody : Str → Bool
  | [] => false
  | c :: cs => !isQuoteChar c && quoteReachable cs

/-- Match `["'][^"']+["']` at this position. -/
def matchQuotedValue : Str → Bool
  | [] => false
  | c :: cs => isQuoteChar c && matchValueBody cs

/-- Match `\s*=\s*["'][^"']+["']` at this position (the part of the id regex
after `id`). -/
def matchIdEq (s : Str) : Bool :=
  match s.dropWhile jsWs with
  | c :: rest => c = '=' && matchQuotedValue (rest.dropWhile jsWs)
  | [] => false

/-- Match `/\sid\s*=\s*["'][^"']+["']/i` at the start of the string. -/
def matchIdAt : Str → Bool
  | c :: c1 :: c2 :: rest =>
    jsWs c && (c1 = 'i' || c1 = 'I') && (c2 = 'd' || c2 = 'D') && matchIdEq rest
  | _ => false

/-- `/\sid\s*=\s*["'][^"']+["']/i.test(attrs)`: the pattern matches at some
position of the string. -/
def testIdAttr : Str → Bool
  | [] => false
  | c :: cs => matchIdAt (c :: cs) || testIdAttr cs

/-!
The eligible regex `/<(h[1-6]|p|li|blockquote|pre)(\s[^>]*)?>([\s\S]*?)<\/\1>/gi`
decomposes the rendered HTML into non-matching stretches and matches.  A `Seg`
is one piece of that decomposition: `text` is a stretch the regex leaves
untouched, `elem tag attrs inner` is one match with its three capture groups
(`attrs` is the raw captured attribute text, including its leading whitespace,
or `[]` when the optional group did not participate).  `String.replace` maps
the callback over the matches and copies everything else verbatim.
-/
inductive Seg
  | text (raw : Str)
  | elem (tag : Str) (attrs : Str) (inner : Str)
deriving DecidableEq

/-- The `used` map of `addStableAnchorIds` (`Map<string, number>` with
`used.get(base) || 0` reads), modelled as a total function defaulting to 0. -/
def Used := Str → Nat

def emptyUsed : Used := fun _ => 0

def setUsed (u : Used) (b : Str) (n : Nat) : Used :=
  fun x => if x = b then n else u x

/-- Does the replacement callback process this segment (assign it an id)?
Text between matches is untouched, and a match whose captured attributes
already carry a non-empty id is returned unchanged. -/
def segProcessed : Seg → Bool
  | .text _ => false
  | .elem _ attrs _ => !testIdAttr attrs

/-- The flattened text of a match's inner HTML:
`inner.replace(/<[^>]*>/g, " ").replace(/\s+/g, " ").trim().slice(0, 80)`. -/
def flattenInnerText (inner : Str) : Str :=
  (jsTrim (collapseWsWith ' ' false (stripTags inner))).take 80

/-- The base slug of a processed match:
`slugifyAnchorText(text || tag)`. -/
def segBase : Seg → Str
  | .text _ => []
  | .elem tag _ inner =>
    let text := flattenInnerText inner
    slugifyAnchorText (if text = [] then tag else text)

/-- The id assigned at occurrence `count` of a base slug:
`count === 1 ? base : `${base}-${count}``. -/
def suffixId (base : Str) (count : Nat) : Str :=
  if count = 1 then base else base ++ '-' :: natToChars count

/-- The attribute text inserted into the opening tag: ` id="${id}"`. -/
def mkIdAttr (id : Str) : Str := " id=\"".data ++ id ++ "\"".data

/-- The replacement callback of `addStableAnchorIds`, threading the `used`
map. -/
def processSeg (u : Used) : Seg → Used × Seg
  | .text raw => (u, .text raw)
  | .elem tag attrs inner =>
    if testIdAttr attrs then (u, .elem tag attrs inner)
    else
      let base := segBase (.elem tag attrs inner)
      let count := u base + 1
      (setUsed u base count, .elem tag (attrs ++ mkIdAttr (suffixId base count)) inner)

def addAnchorsAux : Used → List Seg → List Seg
  | _, [] => []
  | u, s :: ss =>
    let p := processSeg u s
    p.2 :: addAnchorsAux p.1 ss

/-- `addStableAnchorIds` over the segment decomposition of the input HTML. -/
def addStableAnchorIds (segs : List Seg) : List Seg :=
  addAnchorsAux emptyUsed segs

/-- The ids generated by one render pass of `addStableAnchorIds`, in order
(one per processed segment). -/
def assignedIdsAux : Used → List Seg → List Str
  | _, [] => []
  | u, s :: ss =>
    if segProcessed s then
      suffixId (segBase s) (u (segBase s) + 1) ::
        assignedIdsAux (setUsed u (segBase s) (u (segBase s) + 1)) ss
    else assignedIdsAux u ss

def assignedIds (segs : List Seg) : List Str := assignedIdsAux emptyUsed segs

/-- The tag alternatives of the eligible regex. -/
def eligibleTags : List Str :=
  ["h1".data, "h2".data, "h3".data, "h4".data, "h5".data, "h6".data,
   "p".data, "li".data, "blockquote".data, "pre".data]


/-!
Comment store, from `worker/routes/comments.ts`.
-/

/-- A row of the `comments` table / the comment object returned by the API
(`ip_hash` is `null` in API responses). -/
structure CommentRecord where
  id : Str
  doc_id : Str
  author_name : Str
  body : Str
  anchor_id : Str
  created_at : Str
  ip_hash : Option Str
  flagged : Nat
  doc_version : Nat
deriving DecidableEq

/-- The JSON body of `POST /api/comments/:docId`; a field is `none` when it is
absent or not a string. -/
structure PostBody where
  author_name : Option Str
  body : Option Str
  anchor_id : Option Str
deriving DecidableEq

inductive PostOutcome
  | notFound
  | validationError (msg : Str)
  | rateLimited
  | created (c : CommentRecord)
deriving DecidableEq

/-- `(body.author_name || "").trim()`. -/
def authorTrim (b : PostBody) : Str := jsTrim (b.author_name.getD [])

/-- `(body.body || "").trim()`. -/
def bodyTrim (b : PostBody) : Str := jsTrim (b.body.getD [])

/-- `typeof body.anchor_id === "string" ? body.anchor_id.trim() : ""`. -/
def anchorRaw (b : PostBody) : Str :=
  match b.anchor_id with
  | some s => jsTrim s
  | none => []

/-- The handler of `POST /api/comments/:docId` (lines 44-113 of
`worker/routes/comments.ts`).  `docRow` is the result of the doc lookup
(`COALESCE(doc_version, 1)`), `rateOk` the outcome of the rate-limit count,
`id`/`now` the generated nanoid and timestamp. -/
def handlePost (docId : Str) (docRow : Option Nat) (b : PostBody) (rateOk : Bool)
    (id now : Str) : PostOutcome :=
  match docRow with
  | none => .notFound
  | some docVersion =>
    let authorName := authorTrim b
    let commentBody := bodyTrim b
    let anchorIdRaw := anchorRaw b
    let anchorId := if anchorIdRaw = [] then "doc-root".data else anchorIdRaw
    if authorName = [] ∨ authorName.length < 1 ∨ authorName.length > 50 then
      .validationError "author_name must be 1-50 characters".data
    else if commentBody = [] ∨ commentBody.length < 1 ∨ commentBody.length > 2000 then
      .validationError "body must be 1-2000 characters".data
    else if anchorId = [] ∨ anchorId.length < 1 ∨ anchorId.length > 120 then
      .validationError "anchor_id must be 1-120 characters".data
    else if !rateOk then .rateLimited
    else
      .created
        { id := id, doc_id := docId, author_name := authorName, body := commentBody,
          anchor_id := anchorId, created_at := now, ip_hash := none, flagged := 0,
          doc_version := docVersion }

/-- Comparison by `created_at` (ISO-8601 strings compare lexicographically,
matching `ORDER BY created_at ASC` on the TEXT column). -/
def createdLe (a b : CommentRecord) : Prop := a.created_at ≤ b.created_at

instance : DecidableRel createdLe := fun a b =>
  inferInstanceAs (Decidable (a.created_at ≤ b.created_at))

instance : IsTotal CommentRecord createdLe :=
  ⟨fun a b => le_total a.created_at b.created_at⟩

instance : IsTrans CommentRecord createdLe :=
  ⟨fun _ _ _ hab hbc => le_trans hab hbc⟩

/-- The handler of `GET /api/comments/:docId`:
`SELECT ... FROM comments WHERE doc_id = ? AND flagged = 0 ORDER BY created_at
ASC`, over a table modelled as a list of rows in insertion order. -/
def listComments (db : List CommentRecord) (docId : Str) : List CommentRecord :=
  List.insertionSort createdLe
    (db.filter (fun c => decide (c.doc_id = docId) && decide (c.flagged = 0)))

/-!
Sidebar grouping, from the inline `renderSidebar` script of
`generateHtmlTemplate` in `worker/routes/docs.ts`.  The current render is
modelled as the list of `(id, textContent)` pairs of the elements carrying an
anchor id, in document order; `document.getElementById` is lookup in that
list.
-/

def docRoot : Str := "doc-root".data

/-- `c.anchor_id || DOC_ROOT`: the key a comment is grouped under. -/
def effAid (c : CommentRecord) : Str :=
  if c.anchor_id = [] then docRoot else c.anchor_id

/-- One step of the `allComments.forEach` grouping loop: append the comment to
its group, creating the group at the end on first occurrence of the key. -/
def addToGroups (gs : List (Str × List CommentRecord)) (c : CommentRecord) :
    List (Str × List CommentRecord) :=
  if gs.any (fun p => decide (p.1 = effAid c)) then
    gs.map (fun p => if p.1 = effAid c then (p.1, p.2 ++ [c]) else p)
  else gs ++ [(effAid c, [c])]

def buildGroups (cs : List CommentRecord) : List (Str × List CommentRecord) :=
  cs.foldl addToGroups []

/-- `order.sort(function(a, b) { return a === DOC_ROOT ? -1 : b === DOC_ROOT ?
1 : 0; })`: a stable sort under this comparator moves the (unique) doc-root
entry to the front and keeps every other entry in its previous relative
order. -/
def pinDocRootFirst (gs : List (Str × List CommentRecord)) :
    List (Str × List CommentRecord) :=
  gs.filter (fun p => decide (p.1 = docRoot)) ++
    gs.filter (fun p => !decide (p.1 = docRoot))

/-- `(targetEl.textContent || '').replace(/\s+/g, ' ').trim().slice(0, 60)`. -/
def labelText (textContent : Str) : Str :=
  (jsTrim (collapseWsWith ' ' false textContent)).take 60

/-- The group header label: `General` for the doc-root group, the target
element's collapsed text when `document.getElementById(aid)` finds one, and
the raw anchor id otherwise. -/
def groupLabel (anchors : List (Str × Str)) (aid : Str) : Str :=
  if aid = docRoot then "General".data
  else
    match anchors.find? (fun a => decide (a.1 = aid)) with
    | some a => labelText a.2
    | none => aid

/-- `renderSidebar`'s grouped view: group key, header label, and the comments
of the group in order. -/
def renderSidebarGroups (anchors : List (Str × Str)) (cs : List CommentRecord) :
    List (Str × Str × List CommentRecord) :=
  (pinDocRootFirst (buildGroups cs)).map (fun p => (p.1, groupLabel anchors p.1, p.2))

/-- First-occurrence order of a list of keys (the `order` array of
`renderSidebar`, before sorting). -/
def firstKeys (ks : List Str) : List Str :=
  ks.foldl (fun acc a => if a ∈ acc then acc else acc ++ [a]) []

/-!
Document Version Store.

Modelled from the spec: the edit endpoint (`PUT /v/:id`, the `commit_edit`
operation of §4.3, implemented in `worker/routes/docs.ts` according to the
project plan's Phase 1) is not present under the provided sources — only its
callers (the MCP client), the migration adding `doc_version`, and the comment
route that stamps `doc_version` are.  Following §4.3: `commit_edit` archives
the live content as a snapshot under the current version number, replaces the
live content, and increments `current_version` by exactly 1; concurrent edits
are serialized by an expected-version compare-and-swap.
-/

structure VersionStore where
  current_version : Nat
  live : Str
  snapshots : List (Nat × Str)
deriving DecidableEq

/-- Modelled from the spec: a document is created on first publish at
version 1 with no snapshots. -/
def initialStore (content : Str) : VersionStore :=
  { current_version := 1, live := content, snapshots := [] }

/-- Modelled from the spec: the serialized effect of one `commit_edit`. -/
def commitEdit (s : VersionStore) (newContent : Str) : VersionStore :=
  { current_version := s.current_version + 1,
    live := newContent,
    snapshots := s.snapshots ++ [(s.current_version, s.live)] }

inductive EditResult
  | conflict
  | ok (s : VersionStore)
deriving DecidableEq

/-- Modelled from the spec: the expected-version compare-and-swap form of
`commit_edit`; on version mismatch nothing is written and a Conflict
surfaces. -/
def commitEditCAS (s : VersionStore) (expected : Nat) (newContent : Str) : EditResult :=
  if s.current_version = expected then .ok (commitEdit s newContent) else .conflict

/-- N serialized `commit_edit` calls. -/
def commitSeq (s : VersionStore) (edits : List Str) : VersionStore :=
  edits.foldl commitEdit s

/-!
Helper lemmas.
-/

theorem scanl_commitEdit_versions (s : VersionStore) (edits : List Str) :
    (List.scanl commitEdit s edits).map (fun t => t.current_version) =
      List.range' s.current_version (edits.length + 1) := by
  induction edits generalizing s with
  | nil => simp [List.range']
  | cons e es ih =>
    simp only [List.scanl_cons, List.map_cons, List.length_cons, List.range']
    exact congrArg _ (ih (commitEdit s e))

theorem commitSeq_snapshots (s : VersionStore) (edits : List Str) :
    (commitSeq s edits).snapshots =
      s.snapshots ++
        (List.range' s.current_version edits.length).zip ((s.live :: edits).dropLast) := by
  induction edits generalizing s with
  | nil => simp [commitSeq]
  | cons e es ih =>
    have h := ih (commitEdit s e)
    simp only [commitSeq, List.foldl_cons] at h ⊢
    rw [h]
    cases es with
    | nil => simp [commitEdit, List.range']
    | cons e2 es2 =>
      simp [commitEdit, List.range', List.dropLast, List.zip_cons_cons,
        List.append_assoc]

/-- Claim C3 (confirmed, modelled from the spec): starting from a document
published at version 1, a sequence of `commit_edit` calls yields observed
versions exactly 1, 2, ..., N+1 with no gaps or repeats; each commit archives
the pre-edit content as a snapshot under the pre-edit version number and
increments `current_version` by exactly 1; snapshot version numbers are
pairwise distinct; and the compare-and-swap form accepts an edit exactly when
the expected version is still current, so serialized concurrent edits can
never write two snapshots under one version number. -/
theorem commit_edit_version_chain :
    (∀ (c0 : Str) (edits : List Str),
      (List.scanl commitEdit (initialStore c0) edits).map
          (fun t => t.current_version) = List.range' 1 (edits.length + 1))
    ∧ (∀ (c0 : Str) (edits : List Str),
      (commitSeq (initialStore c0) edits).snapshots.map Prod.fst =
        List.range' 1 edits.length)
    ∧ (∀ (c0 : Str) (edits : List Str),
      ((commitSeq (initialStore c0) edits).snapshots.map Prod.fst).Nodup)
    ∧ (∀ (c0 : Str) (edits : List Str),
      (commitSeq (initialStore c0) edits).snapshots.map Prod.snd =
        (c0 :: edits).dropLast)
    ∧ (∀ (s : VersionStore) (n : Str),
      (commitEdit s n).current_version = s.current_version + 1 ∧
        (commitEdit s n).snapshots = s.snapshots ++ [(s.current_version, s.live)])
    ∧ (∀ (s : VersionStore) (expected : Nat) (n : Str),
      commitEditCAS s expected n =
        if s.current_version = expected then .ok (commitEdit s n) else .conflict) := by
  have hlen : ∀ (c0 : Str) (edits : List Str),
      (List.range' 1 edits.length).length = ((c0 :: edits).dropLast).length := by
    intro c0 edits
    simp [List.length_range', List.length_dropLast]
  have hsnap : ∀ (c0 : Str) (edits : List Str),
      (commitSeq (initialStore c0) edits).snapshots =
        (List.range' 1 edits.length).zip ((c0 :: edits).dropLast) := by
    intro c0 edits
    have h := commitSeq_snapshots (initialStore c0) edits
    simpa [initialStore, List.dropLast] using h
  refine ⟨?_, ?_, ?_, ?_, ?_, ?_⟩
  · intro c0 edits
    simpa [initialStore] using scanl_commitEdit_versions (initialStore c0) edits
  · intro c0 edits
    rw [hsnap c0 edits]
    exact List.map_fst_zip _ _ (le_of_eq (hlen c0 edits))
  · intro c0 edits
    rw [hsnap c0 edits,
      List.map_fst_zip _ _ (le_of_eq (hlen c0 edits))]
    exact List.nodup_range' _ _
  · intro c0 edits
    rw [hsnap c0 edits]
    exact List.map_snd_zip _ _ (le_of_eq (hlen c0 edits).symm)
  · intro s n
    exact ⟨rfl, rfl⟩
  · intro s expected n
    rfl

/-- Claim C7 (confirmed): the comment list endpoint returns exactly the
comments of the document with `flagged = 0` (a permutation of that filter of
the stored rows), sorted by `created_at` ascending; flagged comments are
excluded from this read path while the store itself is left untouched (the
query is a pure read). -/
theorem list_comments_unflagged_sorted :
    ∀ (db : List CommentRecord) (docId : Str),
      (listComments db docId).Perm
          (db.filter (fun c => decide (c.doc_id = docId) && decide (c.flagged = 0)))
      ∧ List.Sorted createdLe (listComments db docId)
      ∧ ∀ c : CommentRecord,
          c ∈ listComments db docId ↔ (c ∈ db ∧ c.doc_id = docId ∧ c.flagged = 0) := by
  intro db docId
  refine ⟨List.perm_insertionSort _ _, List.sorted_insertionSort _ _, ?_⟩
  intro c
  rw [listComments, (List.perm_insertionSort createdLe _).mem_iff, List.mem_filter]
  simp [and_assoc]

theorem docRootData_ne_nil : ("doc-root".data : Str) ≠ [] := by decide

theorem docRootData_length : ("doc-root".data : Str).length = 8 := by decide

/-- Claim C6 (confirmed): with the document found and the rate limit clear
(both are separate outcomes: NotFound and RateLimited, not ValidationError),
and an anchor_id whose trimmed form is within its own 120-character bound,
`post_comment` creates the comment exactly when the trimmed author_name has
1-50 characters and the trimmed body has 1-2000 characters, and otherwise
rejects with a validation error. -/
theorem post_comment_validation_bounds (docId : Str) (docVersion : Nat)
    (b : PostBody) (id now : Str)
    (hAnchor : (anchorRaw b).length ≤ 120) :
    ((∃ c, handlePost docId (some docVersion) b true id now = .created c) ↔
      (1 ≤ (authorTrim b).length ∧ (authorTrim b).length ≤ 50 ∧
        1 ≤ (bodyTrim b).length ∧ (bodyTrim b).length ≤ 2000))
    ∧ (¬ (1 ≤ (authorTrim b).length ∧ (authorTrim b).length ≤ 50 ∧
          1 ≤ (bodyTrim b).length ∧ (bodyTrim b).length ≤ 2000) →
        ∃ msg, handlePost docId (some docVersion) b true id now = .validationError msg) := by
  have hanchor : ¬ ((if anchorRaw b = [] then "doc-root".data else anchorRaw b) = [] ∨
      (if anchorRaw b = [] then "doc-root".data else anchorRaw b).length < 1 ∨
      (if anchorRaw b = [] then "doc-root".data else anchorRaw b).length > 120) := by
    by_cases h : anchorRaw b = []
    · rw [if_pos h]
      push_neg
      refine ⟨docRootData_ne_nil, ?_, ?_⟩ <;> rw [docRootData_length] <;> omega
    · rw [if_neg h]
      push_neg
      have hp : 0 < (anchorRaw b).length := List.length_pos.mpr h
      exact ⟨h, by omega, by omega⟩
  simp only [handlePost]
  rw [if_neg hanchor, if_neg (by decide : ¬ ((!true : Bool) = true))]
  split_ifs with h1 h2 h3
  · have hb : ¬ (1 ≤ (authorTrim b).length ∧ (authorTrim b).length ≤ 50 ∧
        1 ≤ (bodyTrim b).length ∧ (bodyTrim b).length ≤ 2000) := by
      rcases h1 with h | h | h
      · rw [h]; simp
      · omega
      · omega
    exact ⟨by simp [hb], fun _ => ⟨_, rfl⟩⟩
  · have hb : ¬ (1 ≤ (authorTrim b).length ∧ (authorTrim b).length ≤ 50 ∧
        1 ≤ (bodyTrim b).length ∧ (bodyTrim b).length ≤ 2000) := by
      rcases h2 with h | h | h
      · rw [h]; simp
      · omega
      · omega
    exact ⟨by simp [hb], fun _ => ⟨_, rfl⟩⟩
  · have ha : 1 ≤ (authorTrim b).length ∧ (authorTrim b).length ≤ 50 := by
      push_neg at h1
      have := List.length_pos.mpr h1.1
      omega
    have hbb : 1 ≤ (bodyTrim b).length ∧ (bodyTrim b).length ≤ 2000 := by
      push_neg at h2
      have := List.length_pos.mpr h2.1
      omega
    refine ⟨⟨fun _ => ⟨ha.1, ha.2, hbb.1, hbb.2⟩, fun _ => ⟨_, rfl⟩⟩, ?_⟩
    intro hcon
    exact absurd ⟨ha.1, ha.2, hbb.1, hbb.2⟩ hcon
  · have ha : 1 ≤ (authorTrim b).length ∧ (authorTrim b).length ≤ 50 := by
      push_neg at h1
      have := List.length_pos.mpr h1.1
      omega
    have hbb : 1 ≤ (bodyTrim b).length ∧ (bodyTrim b).length ≤ 2000 := by
      push_neg at h2
      have := List.length_pos.mpr h2.1
      omega
    refine ⟨⟨fun _ => ⟨ha.1, ha.2, hbb.1, hbb.2⟩, fun _ => ⟨_, rfl⟩⟩, ?_⟩
    intro hcon
    exact absurd ⟨ha.1, ha.2, hbb.1, hbb.2⟩ hcon

theorem jsWs_a : jsWs 'a' = false := by decide

theorem jsWs_b : jsWs 'b' = false := by decide

theorem dropWhile_jsWs_replicate (n : Nat) (c : Char) (h : jsWs c = false) :
    List.dropWhile jsWs (List.replicate n c) = List.replicate n c := by
  cases n with
  | zero => rfl
  | succ k => rw [List.replicate_succ, List.dropWhile_cons, h]; simp

theorem jsTrim_replicate (n : Nat) (c : Char) (h : jsWs c = false) :
    jsTrim (List.replicate n c) = List.replicate n c := by
  rw [jsTrim, dropWhile_jsWs_replicate n c h, List.reverse_replicate,
    dropWhile_jsWs_replicate n c h, List.reverse_replicate]

/-- Witness for C6: an author_name of exactly 50 characters with a body of
exactly 2000 characters is accepted, and an author_name of 51 characters (or
a body of 2001 characters) is rejected with a validation error. -/
theorem post_comment_validation_bounds_witness :
    (∃ c, handlePost "d".data (some 1)
        { author_name := some (List.replicate 50 'a'),
          body := some (List.replicate 2000 'b'), anchor_id := none }
        true "i".data "t".data = .created c)
    ∧ (∃ msg, handlePost "d".data (some 1)
        { author_name := some (List.replicate 51 'a'),
          body := some (List.replicate 2001 'b'), anchor_id := none }
        true "i".data "t".data = .validationError msg) :=
  ⟨(post_comment_validation_bounds "d".data 1
      { author_name := some (List.replicate 50 'a'),
        body := some (List.replicate 2000 'b'), anchor_id := none }
      "i".data "t".data (by decide)).1.mpr
      (by
        rw [authorTrim, bodyTrim,
          show ((some (List.replicate 50 'a')).getD [] : Str) =
            List.replicate 50 'a' from rfl,
          show ((some (List.replicate 2000 'b')).getD [] : Str) =
            List.replicate 2000 'b' from rfl,
          jsTrim_replicate 50 'a' jsWs_a, jsTrim_replicate 2000 'b' jsWs_b,
          List.length_replicate, List.length_replicate]
        omega),
   (post_comment_validation_bounds "d".data 1
      { author_name := some (List.replicate 51 'a'),
        body := some (List.replicate 2001 'b'), anchor_id := none }
      "i".data "t".data (by decide)).2
      (by
        rw [authorTrim, bodyTrim,
          show ((some (List.replicate 51 'a')).getD [] : Str) =
            List.replicate 51 'a' from rfl,
          show ((some (List.replicate 2001 'b')).getD [] : Str) =
            List.replicate 2001 'b' from rfl,
          jsTrim_replicate 51 'a' jsWs_a, jsTrim_replicate 2001 'b' jsWs_b,
          List.length_replicate, List.length_replicate]
        omega)⟩

/-- Claim C10 (confirmed): `post_comment` never rejects a missing or
whitespace-only anchor_id — after trimming, an empty anchor_id is silently
replaced by the fixed general anchor `doc-root` — and a non-empty trimmed
anchor_id is rejected with a ValidationError exactly when its length exceeds
120 characters (stated with valid author/body, whose checks run first). -/
theorem post_comment_anchor_defaulting (docId : Str) (docVersion : Nat)
    (b : PostBody) (id now : Str)
    (hA : 1 ≤ (authorTrim b).length ∧ (authorTrim b).length ≤ 50)
    (hB : 1 ≤ (bodyTrim b).length ∧ (bodyTrim b).length ≤ 2000) :
    (anchorRaw b = [] →
      handlePost docId (some docVersion) b true id now =
        .created { id := id, doc_id := docId, author_name := authorTrim b,
                   body := bodyTrim b, anchor_id := "doc-root".data,
                   created_at := now, ip_hash := none, flagged := 0,
                   doc_version := docVersion })
    ∧ (anchorRaw b ≠ [] → (anchorRaw b).length ≤ 120 →
        ∃ c, handlePost docId (some docVersion) b true id now = .created c ∧
          c.anchor_id = anchorRaw b)
    ∧ (anchorRaw b ≠ [] → (anchorRaw b).length > 120 →
        handlePost docId (some docVersion) b true id now =
          .validationError "anchor_id must be 1-120 characters".data) := by
  have hA1 : ¬ (authorTrim b = [] ∨ (authorTrim b).length < 1 ∨
      (authorTrim b).length > 50) := by
    push_neg
    refine ⟨?_, by omega, by omega⟩
    intro h
    rw [h] at hA
    simp at hA
  have hB1 : ¬ (bodyTrim b = [] ∨ (bodyTrim b).length < 1 ∨
      (bodyTrim b).length > 2000) := by
    push_neg
    refine ⟨?_, by omega, by omega⟩
    intro h
    rw [h] at hB
    simp at hB
  refine ⟨?_, ?_, ?_⟩
  · intro hr
    simp only [handlePost]
    rw [if_neg hA1, if_neg hB1, if_pos hr, if_neg (by
      push_neg
      refine ⟨docRootData_ne_nil, ?_, ?_⟩ <;> rw [docRootData_length] <;> omega),
      if_neg (by decide : ¬ ((!true : Bool) = true))]
  · intro hr hlen
    simp only [handlePost]
    rw [if_neg hA1, if_neg hB1, if_neg hr, if_neg (by
      push_neg
      have hp : 0 < (anchorRaw b).length := List.length_pos.mpr hr
      exact ⟨hr, by omega, by omega⟩),
      if_neg (by decide : ¬ ((!true : Bool) = true))]
    exact ⟨_, rfl, rfl⟩
  · intro hr hlen
    simp only [handlePost]
    rw [if_neg hA1, if_neg hB1, if_neg hr, if_pos (by
      right; right; exact hlen)]

/-- Witness for C10: a whitespace-only anchor_id is silently replaced by
doc-root; a 120-character anchor_id is accepted unchanged; a 121-character
anchor_id is rejected. -/
theorem post_comment_anchor_defaulting_witness :
    (handlePost "d".data (some 1)
        { author_name := some "al".data, body := some "bo".data,
          anchor_id := some "  ".data }
        true "i".data "t".data =
      .created { id := "i".data, doc_id := "d".data, author_name := "al".data,
                 body := "bo".data, anchor_id := "doc-root".data,
                 created_at := "t".data, ip_hash := none, flagged := 0,
                 doc_version := 1 })
    ∧ (∃ c, handlePost "d".data (some 1)
        { author_name := some "al".data, body := some "bo".data,
          anchor_id := some (List.replicate 120 'x') }
        true "i".data "t".data = .created c ∧
          c.anchor_id = anchorRaw
            { author_name := some "al".data, body := some "bo".data,
              anchor_id := some (List.replicate 120 'x') })
    ∧ (handlePost "d".data (some 1)
        { author_name := some "al".data, body := some "bo".data,
          anchor_id := some (List.replicate 121 'x') }
        true "i".data "t".data =
      .validationError "anchor_id must be 1-120 characters".data) := by
  have hx : jsWs 'x' = false := by decide
  refine ⟨?_, ?_, ?_⟩
  · exact (post_comment_anchor_defaulting "d".data 1 _ "i".data "t".data
      (by decide) (by decide)).1 (by decide)
  · exact (post_comment_anchor_defaulting "d".data 1 _ "i".data "t".data
      (by decide) (by decide)).2.1
      (by
        rw [show anchorRaw
            { author_name := some "al".data, body := some "bo".data,
              anchor_id := some (List.replicate 120 'x') } =
            jsTrim (List.replicate 120 'x') from rfl,
          jsTrim_replicate 120 'x' hx]
        simp)
      (by
        rw [show anchorRaw
            { author_name := some "al".data, body := some "bo".data,
              anchor_id := some (List.replicate 120 'x') } =
            jsTrim (List.replicate 120 'x') from rfl,
          jsTrim_replicate 120 'x' hx, List.length_replicate])
  · exact (post_comment_anchor_defaulting "d".data 1 _ "i".data "t".data
      (by decide) (by decide)).2.2
      (by
        rw [show anchorRaw
            { author_name := some "al".data, body := some "bo".data,
              anchor_id := some (List.replicate 121 'x') } =
            jsTrim (List.replicate 121 'x') from rfl,
          jsTrim_replicate 121 'x' hx]
        simp)
      (by
        rw [show anchorRaw
            { author_name := some "al".data, body := some "bo".data,
              anchor_id := some (List.replicate 121 'x') } =
            jsTrim (List.replicate 121 'x') from rfl,
          jsTrim_replicate 121 'x' hx, List.length_replicate]
        omega)

theorem addToGroups_map_fst (gs : List (Str × List CommentRecord)) (c : CommentRecord) :
    (addToGroups gs c).map Prod.fst =
      if effAid c ∈ gs.map Prod.fst then gs.map Prod.fst
      else gs.map Prod.fst ++ [effAid c] := by
  unfold addToGroups
  by_cases h : gs.any (fun p => decide (p.1 = effAid c)) = true
  · rcases List.any_eq_true.mp h with ⟨p, hp, hpe⟩
    rw [if_pos h, if_pos (List.mem_map.mpr ⟨p, hp, of_decide_eq_true hpe⟩),
      List.map_map]
    refine List.map_congr_left ?_
    intro q _
    by_cases hq : q.1 = effAid c
    · simp [hq]
    · simp [hq]
  · rw [if_neg h, if_neg ?nomem, List.map_append]
    case nomem =>
      intro hin
      rcases List.mem_map.mp hin with ⟨p, hp, hpe⟩
      exact h (List.any_eq_true.mpr ⟨p, hp, decide_eq_true hpe⟩)
    rfl

theorem foldl_addToGroups_map_fst (cs : List CommentRecord) :
    ∀ acc : List (Str × List CommentRecord),
      (cs.foldl addToGroups acc).map Prod.fst =
        (cs.map effAid).foldl
          (fun ks a => if a ∈ ks then ks else ks ++ [a]) (acc.map Prod.fst) := by
  induction cs with
  | nil => intro acc; rfl
  | cons c cs ih =>
    intro acc
    simp only [List.foldl_cons, List.map_cons]
    rw [ih, addToGroups_map_fst]

theorem buildGroups_map_fst (cs : List CommentRecord) :
    (buildGroups cs).map Prod.fst = firstKeys (cs.map effAid) := by
  have h := foldl_addToGroups_map_fst cs []
  simpa [buildGroups, firstKeys] using h

theorem buildGroups_inv (cs : List CommentRecord) :
    ((buildGroups cs).map Prod.fst).Nodup ∧
      (∀ x ∈ cs, effAid x ∈ (buildGroups cs).map Prod.fst) ∧
      (∀ p ∈ buildGroups cs,
        p.2 = cs.filter (fun x => decide (effAid x = p.1))) := by
  induction cs using List.reverseRecOn with
  | nil => exact ⟨List.nodup_nil, by simp, by simp [buildGroups]⟩
  | append_singleton l c ih =>
    obtain ⟨ihN, ihK, ihF⟩ := ih
    have hb : buildGroups (l ++ [c]) = addToGroups (buildGroups l) c := by
      rw [buildGroups, List.foldl_concat]
      rfl
    by_cases hmem : (buildGroups l).any (fun p => decide (p.1 = effAid c)) = true
    · have hb2 : buildGroups (l ++ [c]) =
          (buildGroups l).map
            (fun p => if p.1 = effAid c then (p.1, p.2 ++ [c]) else p) := by
        rw [hb]
        unfold addToGroups
        rw [if_pos hmem]
      have keysEq : (buildGroups (l ++ [c])).map Prod.fst =
          (buildGroups l).map Prod.fst := by
        rw [hb2, List.map_map]
        refine List.map_congr_left ?_
        intro q _
        by_cases hq : q.1 = effAid c
        · simp [hq]
        · simp [hq]
      refine ⟨keysEq ▸ ihN, ?_, ?_⟩
      · intro x hx
        rw [keysEq]
        rcases List.mem_append.mp hx with hx | hx
        · exact ihK x hx
        · rcases List.any_eq_true.mp hmem with ⟨p, hp, hpe⟩
          have hx : x = c := List.mem_singleton.mp hx
          rw [hx, ← of_decide_eq_true hpe]
          exact List.mem_map.mpr ⟨p, hp, rfl⟩
      · intro p' hp'
        rw [hb2] at hp'
        rcases List.mem_map.mp hp' with ⟨p, hp, hpe⟩
        rw [List.filter_append]
        by_cases hq : p.1 = effAid c
        · rw [← hpe]
          simp only [if_pos hq]
          rw [ihF p hp]
          have : List.filter (fun x => decide (effAid x = p.1)) [c] = [c] := by
            simp [hq.symm]
          rw [this]
        · rw [← hpe]
          simp only [if_neg hq]
          rw [ihF p hp]
          have : List.filter (fun x => decide (effAid x = p.1)) [c] = [] := by
            simp only [List.filter]
            have : ¬ effAid c = p.1 := fun h => hq h.symm
            simp [this]
          rw [this, List.append_nil]
    · have hb2 : buildGroups (l ++ [c]) =
          buildGroups l ++ [(effAid c, [c])] := by
        rw [hb]
        unfold addToGroups
        rw [if_neg hmem]
      have notin : effAid c ∉ (buildGroups l).map Prod.fst := by
        intro hin
        rcases List.mem_map.mp hin with ⟨p, hp, hpe⟩
        exact hmem (List.any_eq_true.mpr ⟨p, hp, decide_eq_true hpe⟩)
      have keysEq : (buildGroups (l ++ [c])).map Prod.fst =
          (buildGroups l).map Prod.fst ++ [effAid c] := by
        rw [hb2, List.map_append]
        rfl
      refine ⟨?_, ?_, ?_⟩
      · rw [keysEq]
        exact ((List.perm_append_singleton _ _).nodup_iff).mpr
          (List.nodup_cons.mpr ⟨notin, ihN⟩)
      · intro x hx
        rw [keysEq]
        rcases List.mem_append.mp hx with hx | hx
        · exact List.mem_append.mpr (Or.inl (ihK x hx))
        · have hx : x = c := List.mem_singleton.mp hx
          rw [hx]
          exact List.mem_append.mpr (Or.inr (List.mem_singleton.mpr rfl))
      · intro p' hp'
        rw [hb2] at hp'
        rw [List.filter_append]
        rcases List.mem_append.mp hp' with hp | hp
        · have hne : ¬ effAid c = p'.1 := by
            intro h
            exact notin (h ▸ List.mem_map.mpr ⟨p', hp, rfl⟩)
          have hc : List.filter (fun x => decide (effAid x = p'.1)) [c] = [] := by
            simp [hne]
          rw [hc, List.append_nil]
          exact ihF p' hp
        · have hp : p' = (effAid c, [c]) := List.mem_singleton.mp hp
          rw [hp]
          have hl : List.filter (fun x => decide (effAid x = effAid c)) l = [] := by
            rw [List.filter_eq_nil_iff]
            intro a ha hae
            exact notin (of_decide_eq_true hae ▸ ihK a ha)
          simp [hl]

theorem map_fst_filter_pos (gs : List (Str × List CommentRecord)) (b : Str) :
    (gs.filter (fun p => decide (p.1 = b))).map Prod.fst =
      (gs.map Prod.fst).filter (fun k => decide (k = b)) := by
  induction gs with
  | nil => rfl
  | cons g gs ih =>
    by_cases h : g.1 = b <;> simp [List.filter_cons, h, ih]

theorem map_fst_filter_neg (gs : List (Str × List CommentRecord)) (b : Str) :
    (gs.filter (fun p => !decide (p.1 = b))).map Prod.fst =
      (gs.map Prod.fst).filter (fun k => !decide (k = b)) := by
  induction gs with
  | nil => rfl
  | cons g gs ih =>
    by_cases h : g.1 = b <;> simp [List.filter_cons, h, ih]

/-- Claim C8 counterexample: with anchors `alpha`, `beta` in that document
order and a comment list whose first comment targets `beta`, the sidebar
shows the `beta` group before the `alpha` group — groups follow first
appearance in the comment list, not the anchor's document-order position. -/
theorem sidebar_groups_not_document_order :
    (renderSidebarGroups
        [("alpha".data, "Alpha".data), ("beta".data, "Beta".data)]
        [{ id := "c1".data, doc_id := "d".data, author_name := "ann".data,
           body := "b1".data, anchor_id := "beta".data, created_at := "t1".data,
           ip_hash := none, flagged := 0, doc_version := 1 },
         { id := "c2".data, doc_id := "d".data, author_name := "bob".data,
           body := "b2".data, anchor_id := "alpha".data, created_at := "t2".data,
           ip_hash := none, flagged := 0, doc_version := 1 }]).map
        (fun g => g.1) = ["beta".data, "alpha".data]
    ∧ [("alpha".data, "Alpha".data), ("beta".data, "Beta".data)].map Prod.fst =
        ["alpha".data, "beta".data] := by
  decide

/-- Claim C8 (amended): comments are grouped by their raw anchor id (an empty
anchor id counts as the general doc-root bucket, while a stale anchor id keeps
its own group); within-group creation order is preserved (each group holds
exactly the comments whose anchor key matches, in list order); and the groups
appear in order of the key's first appearance in the comment list, except that
the general doc-root bucket is pinned first. -/
theorem sidebar_grouping_characterization (anchors : List (Str × Str))
    (cs : List CommentRecord) :
    ((renderSidebarGroups anchors cs).map (fun g => g.1) =
      (firstKeys (cs.map effAid)).filter (fun k => decide (k = docRoot)) ++
        (firstKeys (cs.map effAid)).filter (fun k => !decide (k = docRoot)))
    ∧ (∀ g, g ∈ renderSidebarGroups anchors cs →
        g.2.2 = cs.filter (fun c => decide (effAid c = g.1))) := by
  constructor
  · have h1 : (renderSidebarGroups anchors cs).map (fun g => g.1) =
        (pinDocRootFirst (buildGroups cs)).map Prod.fst := by
      rw [renderSidebarGroups, List.map_map]
      rfl
    rw [h1, pinDocRootFirst, List.map_append, map_fst_filter_pos,
      map_fst_filter_neg, buildGroups_map_fst]
  · intro g hg
    rw [renderSidebarGroups] at hg
    rcases List.mem_map.mp hg with ⟨p, hp, hpe⟩
    have hpb : p ∈ buildGroups cs := by
      rcases List.mem_append.mp hp with h | h
      · exact List.mem_of_mem_filter h
      · exact List.mem_of_mem_filter h
    have h1 : g.1 = p.1 := by rw [← hpe]
    have h2 : g.2.2 = p.2 := by rw [← hpe]
    rw [h1, h2]
    exact (buildGroups_inv cs).2.2 p hpb

/-- Witness for C8: the characterization applied at a concrete input with an
empty-anchor (general) comment: the doc-root group holds exactly the comments
whose effective anchor is doc-root, in creation order. -/
theorem sidebar_grouping_characterization_witness :
    (("doc-root".data, "General".data,
        [{ id := "c2".data, doc_id := "d".data, author_name := "bob".data,
           body := "b2".data, anchor_id := [], created_at := "t2".data,
           ip_hash := none, flagged := 0, doc_version := 1 }]) :
        Str × Str × List CommentRecord).2.2 =
      [{ id := "c1".data, doc_id := "d".data, author_name := "ann".data,
         body := "b1".data, anchor_id := "alpha".data, created_at := "t1".data,
         ip_hash := none, flagged := 0, doc_version := 1 },
       { id := "c2".data, doc_id := "d".data, author_name := "bob".data,
         body := "b2".data, anchor_id := [], created_at := "t2".data,
         ip_hash := none, flagged := 0, doc_version := 1 }].filter
        (fun c => decide (effAid c =
          (("doc-root".data, "General".data,
            [{ id := "c2".data, doc_id := "d".data, author_name := "bob".data,
               body := "b2".data, anchor_id := [], created_at := "t2".data,
               ip_hash := none, flagged := 0, doc_version := 1 }]) :
              Str × Str × List CommentRecord).1)) :=
  (sidebar_grouping_characterization [("alpha".data, "Alpha".data)]
    [{ id := "c1".data, doc_id := "d".data, author_name := "ann".data,
       body := "b1".data, anchor_id := "alpha".data, created_at := "t1".data,
       ip_hash := none, flagged := 0, doc_version := 1 },
     { id := "c2".data, doc_id := "d".data, author_name := "bob".data,
       body := "b2".data, anchor_id := [], created_at := "t2".data,
       ip_hash := none, flagged := 0, doc_version := 1 }]).2
    ("doc-root".data, "General".data,
      [{ id := "c2".data, doc_id := "d".data, author_name := "bob".data,
         body := "b2".data, anchor_id := [], created_at := "t2".data,
         ip_hash := none, flagged := 0, doc_version := 1 }])
    (by decide)

/-- Claim C2: a comment whose `anchor_id` is absent from the current render's
anchor set is not re-grouped into the general doc-root bucket — `renderSidebar`
keeps it in its own group, keyed and labelled by the stale anchor id, with no
edited-away marker.  Here the current render only has anchor `intro`, yet the
orphaned comment on `overview` is displayed under key `overview` (label
`overview`), not under `doc-root`. -/
theorem orphaned_comment_kept_under_stale_anchor :
    renderSidebarGroups [("intro".data, "Intro".data)]
        [{ id := "c1".data, doc_id := "d".data, author_name := "ann".data,
           body := "hi".data, anchor_id := "overview".data, created_at := "t1".data,
           ip_hash := none, flagged := 0, doc_version := 1 }] =
      [("overview".data, "overview".data,
        [{ id := "c1".data, doc_id := "d".data, author_name := "ann".data,
           body := "hi".data, anchor_id := "overview".data, created_at := "t1".data,
           ip_hash := none, flagged := 0, doc_version := 1 }])]
    ∧ ("overview".data : Str) ≠ docRoot := by
  decide

/-- The generated-id stream restricted to the processed segments. -/
def idsFromProc : Used → List Seg → List Str
  | _, [] => []
  | u, s :: ps =>
    suffixId (segBase s) (u (segBase s) + 1) ::
      idsFromProc (setUsed u (segBase s) (u (segBase s) + 1)) ps

theorem assignedIdsAux_eq_idsFromProc (ss : List Seg) :
    ∀ u : Used, assignedIdsAux u ss = idsFromProc u (ss.filter segProcessed) := by
  induction ss with
  | nil => intro u; rfl
  | cons s ss ih =>
    intro u
    by_cases hp : segProcessed s = true
    · rw [List.filter_cons_of_pos hp]
      unfold assignedIdsAux
      rw [if_pos hp, idsFromProc, ih]
    · rw [List.filter_cons_of_neg (by simpa using hp)]
      unfold assignedIdsAux
      rw [if_neg hp, ih]

theorem idsFromProc_getElem? (ps : List Seg) :
    ∀ (u : Used) (i : Nat) (s : Seg), ps[i]? = some s →
      (idsFromProc u ps)[i]? =
        some (suffixId (segBase s)
          (u (segBase s) +
            ((ps.take i).filter (fun t => decide (segBase t = segBase s))).length + 1)) := by
  induction ps with
  | nil => intro u i s h; simp at h
  | cons s0 ps ih =>
    intro u i s h
    cases i with
    | zero =>
      rw [List.getElem?_cons_zero] at h
      obtain rfl : s0 = s := Option.some.inj h
      rw [idsFromProc, List.getElem?_cons_zero, List.take_zero, List.filter_nil,
        List.length_nil]
    | succ j =>
      rw [List.getElem?_cons_succ] at h
      rw [idsFromProc, List.getElem?_cons_succ, ih _ j s h]
      have htake : (s0 :: ps).take (j + 1) = s0 :: ps.take j := rfl
      rw [htake, List.filter_cons]
      by_cases hb : segBase s0 = segBase s
      · rw [if_pos (by simpa using hb), List.length_cons]
        have hu : setUsed u (segBase s0) (u (segBase s0) + 1) (segBase s) =
            u (segBase s) + 1 := by
          rw [setUsed, if_pos hb.symm, hb]
        rw [hu]
        exact congrArg (fun n => some (suffixId (segBase s) n)) (by omega)
      · rw [if_neg (by simpa using hb)]
        have hu : setUsed u (segBase s0) (u (segBase s0) + 1) (segBase s) =
            u (segBase s) := by
          rw [setUsed, if_neg (fun h => hb h.symm)]
        rw [hu]

theorem assignedIds_occurrence (segs : List Seg) (i : Nat) (s : Seg)
    (h : (segs.filter segProcessed)[i]? = some s) :
    (assignedIds segs)[i]? =
      some (suffixId (segBase s)
        ((((segs.filter segProcessed).take i).filter
            (fun t => decide (segBase t = segBase s))).length + 1)) := by
  rw [assignedIds, assignedIdsAux_eq_idsFromProc,
    idsFromProc_getElem? _ _ _ _ h]
  rw [show emptyUsed (segBase s) = 0 from rfl, Nat.zero_add]

/-- Claim C4 (confirmed): in a render pass, among the eligible nodes the
assigner processes (those without a pre-existing id), the first whose
flattened text yields a given base slug receives the base slug itself as its
anchor, and the Nth such node (N at least 2) receives base-N: the anchor at
processed position i is the base slug suffixed by one more than the number of
earlier processed nodes with the same base slug. -/
theorem anchor_occurrence_suffixing (segs : List Seg) (i : Nat) (s : Seg)
    (h : (segs.filter segProcessed)[i]? = some s) :
    (assignedIds segs)[i]? =
      some (suffixId (segBase s)
        ((((segs.filter segProcessed).take i).filter
            (fun t => decide (segBase t = segBase s))).length + 1)) :=
  assignedIds_occurrence segs i s h

/-- Witness for C4: two paragraphs both flattening to Overview receive the
anchors overview and overview-2, via the occurrence characterization. -/
theorem anchor_occurrence_suffixing_witness :
    (assignedIds [Seg.elem "p".data [] "Overview".data,
        Seg.elem "p".data [] "Overview".data])[0]? = some "overview".data
    ∧ (assignedIds [Seg.elem "p".data [] "Overview".data,
        Seg.elem "p".data [] "Overview".data])[1]? = some "overview-2".data := by
  constructor
  · rw [anchor_occurrence_suffixing
      [Seg.elem "p".data [] "Overview".data, Seg.elem "p".data [] "Overview".data]
      0 (Seg.elem "p".data [] "Overview".data) (by decide)]
    decide
  · rw [anchor_occurrence_suffixing
      [Seg.elem "p".data [] "Overview".data, Seg.elem "p".data [] "Overview".data]
      1 (Seg.elem "p".data [] "Overview".data) (by decide)]
    decide

/-- Left inverse of the decimal rendering: read digits back. -/
def charsToNat (s : Str) : Nat :=
  s.foldl (fun a c => a * 10 + (c.toNat - 48)) 0

theorem charsToNat_concat (s : Str) (c : Char) :
    charsToNat (s ++ [c]) = charsToNat s * 10 + (c.toNat - 48) := by
  rw [charsToNat, List.foldl_concat]
  rfl

theorem digitChar_toNat (d : Nat) (h : d < 10) :
    (Nat.digitChar d).toNat - 48 = d := by
  have hfin : ∀ x : Fin 10, (Nat.digitChar x.val).toNat - 48 = x.val := by decide
  exact hfin ⟨d, h⟩

theorem natToCharsF_correct : ∀ (f n : Nat), n ≤ f →
    charsToNat (natToCharsF f n) = n := by
  intro f
  induction f with
  | zero =>
    intro n h
    obtain rfl : n = 0 := Nat.le_zero.mp h
    rfl
  | succ f ih =>
    intro n h
    by_cases h0 : n = 0
    · rw [h0]
      rfl
    · rw [natToCharsF, if_neg h0, charsToNat_concat,
        ih (n / 10) (by omega),
        digitChar_toNat (n % 10) (Nat.mod_lt n (by omega))]
      omega

theorem charsToNat_natToChars (n : Nat) : charsToNat (natToChars n) = n := by
  by_cases h : n = 0
  · rw [h]
    rfl
  · rw [natToChars, if_neg h]
    exact natToCharsF_correct n n le_rfl

theorem natToChars_injective (m n : Nat) (h : natToChars m = natToChars n) :
    m = n := by
  rw [← charsToNat_natToChars m, h, charsToNat_natToChars]

theorem suffixId_same_base_ne (b : Str) (m n : Nat) (hmn : m ≠ n) :
    suffixId b m ≠ suffixId b n := by
  intro h
  by_cases hm : m = 1 <;> by_cases hn : n = 1
  · exact hmn (hm.trans hn.symm)
  · rw [suffixId, if_pos hm, suffixId, if_neg hn] at h
    exact List.cons_ne_nil _ _ (List.self_eq_append_right.mp h)
  · rw [suffixId, if_neg hm, suffixId, if_pos hn] at h
    exact List.cons_ne_nil _ _ (List.self_eq_append_right.mp h.symm)
  · rw [suffixId, if_neg hm, suffixId, if_neg hn] at h
    exact hmn (natToChars_injective m n
      (List.cons.inj (List.append_cancel_left h)).2)

theorem filter_take_length_mono (ps : List Seg) (p : Seg → Bool) (a b : Nat)
    (hab : a ≤ b) :
    ((ps.take a).filter p).length ≤ ((ps.take b).filter p).length := by
  have h1 : ps.take a ++ (ps.take b).drop a = ps.take b := by
    have h2 := List.take_append_drop a (ps.take b)
    rw [List.take_take, min_eq_left hab] at h2
    exact h2
  rw [← h1, List.filter_append, List.length_append]
  exact Nat.le_add_right _ _

theorem filter_take_length_strict (ps : List Seg) (B : Str) (i j : Nat) (si : Seg)
    (hij : i < j) (hi : ps[i]? = some si) (hBi : segBase si = B) :
    ((ps.take i).filter (fun t => decide (segBase t = B))).length <
      ((ps.take j).filter (fun t => decide (segBase t = B))).length := by
  have hsucc : ((ps.take (i + 1)).filter (fun t => decide (segBase t = B))).length =
      ((ps.take i).filter (fun t => decide (segBase t = B))).length + 1 := by
    rw [List.take_succ, List.filter_append, List.length_append, hi]
    simp [hBi]
  have hm := filter_take_length_mono ps (fun t => decide (segBase t = B)) (i + 1) j hij
  omega

/-- Claim C1 counterexample: three paragraphs flattening to Overview,
Overview, and Overview 2 receive the anchors overview, overview-2 and
overview-2 — the suffixed anchor of the second Overview collides with the
anchor of the node whose own text slugifies to overview-2, so the ids of one
render pass are not pairwise distinct. -/
theorem anchor_ids_can_collide :
    assignedIds [Seg.elem "p".data [] "Overview".data,
        Seg.elem "p".data [] "Overview".data,
        Seg.elem "p".data [] "Overview 2".data] =
      ["overview".data, "overview-2".data, "overview-2".data]
    ∧ ¬ (assignedIds [Seg.elem "p".data [] "Overview".data,
        Seg.elem "p".data [] "Overview".data,
        Seg.elem "p".data [] "Overview 2".data]).Nodup := by
  decide

/-- Claim C1 (amended): two anchors generated in one render pass for
processed nodes with the same base slug are always distinct (the occurrence
counter suffixes them apart); distinctness can fail between different base
slugs — a node whose own text slugifies to base-2 collides with the second
occurrence of base — and against ids already present in the input, which the
assigner never consults. -/
theorem same_base_anchors_distinct (segs : List Seg) (i j : Nat) (si sj : Seg)
    (hi : (segs.filter segProcessed)[i]? = some si)
    (hj : (segs.filter segProcessed)[j]? = some sj)
    (hij : i ≠ j) (hbase : segBase si = segBase sj) :
    (assignedIds segs)[i]? ≠ (assignedIds segs)[j]? := by
  rw [assignedIds_occurrence segs i si hi,
    assignedIds_occurrence segs j sj hj, ← hbase]
  intro hEq
  have h2 := Option.some.inj hEq
  rcases lt_trichotomy i j with hlt | heq | hgt
  · exact suffixId_same_base_ne (segBase si) _ _
      (by
        have := filter_take_length_strict (segs.filter segProcessed)
          (segBase si) i j si hlt hi rfl
        omega) h2
  · exact hij heq
  · exact suffixId_same_base_ne (segBase si) _ _
      (by
        have := filter_take_length_strict (segs.filter segProcessed)
          (segBase si) j i sj hgt hj hbase.symm
        omega) h2

/-- Witness for the amended C1: the two Overview paragraphs of the C4 demo
have the same base slug and indeed receive distinct anchors. -/
theorem same_base_anchors_distinct_witness :
    (assignedIds [Seg.elem "p".data [] "Overview".data,
        Seg.elem "p".data [] "Overview".data])[0]? ≠
      (assignedIds [Seg.elem "p".data [] "Overview".data,
        Seg.elem "p".data [] "Overview".data])[1]? :=
  same_base_anchors_distinct
    [Seg.elem "p".data [] "Overview".data, Seg.elem "p".data [] "Overview".data]
    0 1 (Seg.elem "p".data [] "Overview".data)
    (Seg.elem "p".data [] "Overview".data)
    (by decide) (by decide) (by decide) rfl

/-- ASCII lowercase letters and digits — the characters that survive
slugification as themselves (other than the hyphen). -/
def isAsciiAlnum (c : Char) : Bool :=
  ('a' ≤ c && c ≤ 'z') || ('0' ≤ c && c ≤ '9')

/-- The flattened text consists only of punctuation and whitespace: no
character carries alphanumeric content (checked after lowercasing). -/
def noAlnum (t : Str) : Bool :=
  t.all (fun c => !(isAsciiAlnum (Char.toLower c)))

theorem entityTail_mem (ds : Str) :
    ∀ rest : Str, entityTail ds = some rest → ∀ c ∈ rest, c ∈ ds := by
  induction ds with
  | nil => intro rest h; simp [entityTail] at h
  | cons d ds ih =>
    intro rest h c hc
    rw [entityTail] at h
    by_cases h1 : d = ';'
    · rw [if_pos h1] at h
      obtain rfl : ds = rest := Option.some.inj h
      exact List.mem_cons_of_mem _ hc
    · rw [if_neg h1] at h
      by_cases h2 : isEntityChar d = true
      · rw [if_pos h2] at h
        exact List.mem_cons_of_mem _ (ih rest h c hc)
      · rw [if_neg h2] at h
        simp at h

theorem entityAfterAmp_mem (cs : Str) (rest : Str)
    (h : entityAfterAmp cs = some rest) : ∀ c ∈ rest, c ∈ cs := by
  cases cs with
  | nil => simp [entityAfterAmp] at h
  | cons d ds =>
    rw [entityAfterAmp] at h
    by_cases h1 : isEntityChar d = true
    · rw [if_pos h1] at h
      intro c hc
      exact List.mem_cons_of_mem _ (entityTail_mem ds rest h c hc)
    · rw [if_neg h1] at h
      simp at h

theorem stripEntitiesF_mem (f : Nat) :
    ∀ s : Str, ∀ c ∈ stripEntitiesF f s, c ∈ s ∨ c = ' ' := by
  induction f with
  | zero =>
    intro s c hc
    simp only [stripEntitiesF] at hc
    exact Or.inl hc
  | succ f ih =>
    intro s c hc
    cases s with
    | nil => simp [stripEntitiesF] at hc
    | cons a cs =>
      rw [stripEntitiesF] at hc
      by_cases ha : a = '&'
      · rw [if_pos ha] at hc
        cases hrest : entityAfterAmp cs with
        | some rest =>
          rw [hrest] at hc
          rcases List.mem_cons.mp hc with hc | hc
          · exact Or.inr hc
          · rcases ih rest c hc with hc | hc
            · exact Or.inl (List.mem_cons_of_mem _ (entityAfterAmp_mem cs rest hrest c hc))
            · exact Or.inr hc
        | none =>
          rw [hrest] at hc
          rcases List.mem_cons.mp hc with hc | hc
          · exact Or.inl (hc ▸ List.mem_cons_self _ _)
          · rcases ih cs c hc with hc | hc
            · exact Or.inl (List.mem_cons_of_mem _ hc)
            · exact Or.inr hc
      · rw [if_neg ha] at hc
        rcases List.mem_cons.mp hc with hc | hc
        · exact Or.inl (hc ▸ List.mem_cons_self _ _)
        · rcases ih cs c hc with hc | hc
          · exact Or.inl (List.mem_cons_of_mem _ hc)
          · exact Or.inr hc

theorem punctToSpace_ws_or_hyphen (s : Str)
    (h : ∀ c ∈ s, isAsciiAlnum c = false) :
    ∀ d ∈ punctToSpace s, jsWs d = true ∨ d = '-' := by
  intro d hd
  rcases List.mem_map.mp hd with ⟨c, hc, hcd⟩
  by_cases hk : (isSlugKeep c || jsWs c) = true
  · rw [if_pos hk] at hcd
    rcases Bool.or_eq_true_iff.mp hk with hk | hk
    · have ha := h c hc
      rw [isSlugKeep] at hk
      rw [isAsciiAlnum] at ha
      rcases Bool.or_eq_true_iff.mp hk with hk | hk
      · rcases Bool.or_eq_true_iff.mp hk with hk | hk
        · rw [Bool.or_eq_false_iff] at ha
          rw [ha.1] at hk
          simp at hk
        · rw [Bool.or_eq_false_iff] at ha
          rw [ha.2] at hk
          simp at hk
      · exact Or.inr (hcd ▸ of_decide_eq_true hk)
    · exact Or.inl (hcd ▸ hk)
  · rw [if_neg hk] at hcd
    exact Or.inl (hcd ▸ (by decide : jsWs ' ' = true))

theorem collapseWsWith_all_hyphen (s : Str)
    (h : ∀ d ∈ s, jsWs d = true ∨ d = '-') :
    ∀ flag : Bool, ∀ e ∈ collapseWsWith '-' flag s, e = '-' := by
  induction s with
  | nil => intro flag e he; simp [collapseWsWith] at he
  | cons c cs ih =>
    intro flag e he
    have hcs : ∀ d ∈ cs, jsWs d = true ∨ d = '-' :=
      fun d hd => h d (List.mem_cons_of_mem _ hd)
    rw [collapseWsWith] at he
    by_cases hc : jsWs c = true
    · rw [if_pos hc] at he
      cases flag with
      | true => exact ih hcs true e he
      | false =>
        rcases List.mem_cons.mp he with he | he
        · exact he
        · exact ih hcs true e he
    · rw [if_neg hc] at he
      have hd : c = '-' := (h c (List.mem_cons_self _ _)).resolve_left hc
      rcases List.mem_cons.mp he with he | he
      · exact he.trans hd
      · exact ih hcs false e he

theorem collapseHyphens_all_hyphen (s : Str) (h : ∀ d ∈ s, d = '-') :
    (collapseHyphens true s = [] ∧
      collapseHyphens false s = (if s = [] then [] else ['-'])) := by
  induction s with
  | nil => exact ⟨rfl, rfl⟩
  | cons c cs ih =>
    have hc : c = '-' := h c (List.mem_cons_self _ _)
    have hcs : ∀ d ∈ cs, d = '-' := fun d hd => h d (List.mem_cons_of_mem _ hd)
    obtain ⟨ih1, ih2⟩ := ih hcs
    constructor
    · rw [collapseHyphens, if_pos hc, if_pos rfl]
      exact ih1
    · rw [collapseHyphens, if_pos hc, if_neg (Bool.false_ne_true), if_neg
        (List.cons_ne_nil c cs)]
      rw [ih1]

theorem slugifyStripped_empty_of_noAlnum (t : Str) (h : noAlnum t = true) :
    slugifyStripped t = [] := by
  have h0 : ∀ c ∈ t.map Char.toLower, isAsciiAlnum c = false := by
    intro c hc
    rcases List.mem_map.mp hc with ⟨a, ha, hac⟩
    have ht := List.all_eq_true.mp h a ha
    rw [← hac]
    simpa using ht
  have h1 : ∀ c ∈ stripEntities (t.map Char.toLower), isAsciiAlnum c = false := by
    intro c hc
    rcases stripEntitiesF_mem _ _ c hc with hc | hc
    · exact h0 c hc
    · rw [hc]; decide
  have h2 := punctToSpace_ws_or_hyphen _ h1
  have h3 := collapseWsWith_all_hyphen _ h2 false
  have h4 := (collapseHyphens_all_hyphen _ h3).2
  rw [slugifyStripped]
  by_cases h5 : collapseWsWith '-' false
      (punctToSpace (stripEntities (t.map Char.toLower))) = []
  · rw [h5] at h4 ⊢
    rw [if_pos rfl] at h4
    rw [h4]
    rfl
  · rw [if_neg h5] at h4
    rw [h4]
    rfl

theorem slugifyAnchorText_ne_nil (t : Str) : slugifyAnchorText t ≠ [] := by
  rw [slugifyAnchorText]
  by_cases h : slugifyStripped t = []
  · rw [if_pos h]
    decide
  · rw [if_neg h]
    exact h

/-- Claim C5 counterexample: an h2 whose flattened text is the
punctuation-only string !!! is assigned the fixed Slug Generator fallback
token node, not its node-kind string h2 (whose own slug would be h2). -/
theorem punct_only_text_yields_node_not_kind :
    assignedIds [Seg.elem "h2".data [] "!!!".data] = ["node".data]
    ∧ ("node".data : Str) ≠ "h2".data
    ∧ slugifyAnchorText "h2".data = "h2".data := by
  decide

/-- Claim C5 (amended): for a processed eligible node whose flattened text is
only punctuation and/or whitespace, the assigned base is never empty: when the
flattened text is empty (whitespace-only or empty inner content) the base is
the slug of the node-kind tag string — which is the tag itself for every
eligible tag — and when the flattened text is non-empty (contains actual
punctuation) its slug is empty, so the base is the fixed fallback token node
rather than the node kind. -/
theorem punct_ws_fallback (tag attrs inner : Str)
    (hAlnum : noAlnum (flattenInnerText inner) = true) :
    (flattenInnerText inner = [] →
      segBase (Seg.elem tag attrs inner) = slugifyAnchorText tag)
    ∧ (flattenInnerText inner ≠ [] →
      segBase (Seg.elem tag attrs inner) = "node".data)
    ∧ segBase (Seg.elem tag attrs inner) ≠ []
    ∧ ∀ t ∈ eligibleTags, slugifyAnchorText t = t := by
  have hbase : segBase (Seg.elem tag attrs inner) =
      slugifyAnchorText
        (if flattenInnerText inner = [] then tag else flattenInnerText inner) := rfl
  refine ⟨?_, ?_, ?_, by decide⟩
  · intro h
    rw [hbase, if_pos h]
  · intro h
    rw [hbase, if_neg h, slugifyAnchorText,
      slugifyStripped_empty_of_noAlnum _ hAlnum, if_pos rfl]
  · rw [hbase]
    exact slugifyAnchorText_ne_nil _

/-- Witness for the amended C5: a whitespace-only paragraph falls back to the
tag slug p, and a punctuation-only h2 falls back to the fixed token node;
neither is empty. -/
theorem punct_ws_fallback_witness :
    segBase (Seg.elem "p".data [] "  ".data) = slugifyAnchorText "p".data
    ∧ segBase (Seg.elem "h2".data [] "!!!".data) = "node".data
    ∧ segBase (Seg.elem "h2".data [] "!!!".data) ≠ [] :=
  ⟨(punct_ws_fallback "p".data [] "  ".data (by decide)).1 (by decide),
   (punct_ws_fallback "h2".data [] "!!!".data (by decide)).2.1 (by decide),
   (punct_ws_fallback "h2".data [] "!!!".data (by decide)).2.2.1⟩

theorem processSeg_skip (u : Used) (s : Seg) (h : segProcessed s = false) :
    processSeg u s = (u, s) := by
  cases s with
  | text raw => rfl
  | elem tag attrs inner =>
    have ht : testIdAttr attrs = true := by
      rw [segProcessed] at h
      simpa using h
    rw [processSeg, if_pos ht]

theorem addAnchorsAux_length (segs : List Seg) :
    ∀ u : Used, (addAnchorsAux u segs).length = segs.length := by
  induction segs with
  | nil => intro u; rfl
  | cons s ss ih =>
    intro u
    rw [addAnchorsAux, List.length_cons, List.length_cons, ih]

theorem addAnchorsAux_skip (segs : List Seg) :
    ∀ (u : Used) (i : Nat) (s : Seg), segs[i]? = some s →
      segProcessed s = false → (addAnchorsAux u segs)[i]? = some s := by
  induction segs with
  | nil => intro u i s h _; simp at h
  | cons s0 ss ih =>
    intro u i s h hp
    cases i with
    | zero =>
      rw [List.getElem?_cons_zero] at h
      obtain rfl : s0 = s := Option.some.inj h
      rw [addAnchorsAux, List.getElem?_cons_zero, processSeg_skip u _ hp]
    | succ j =>
      rw [List.getElem?_cons_succ] at h
      rw [addAnchorsAux, List.getElem?_cons_succ]
      exact ih _ j s h hp

theorem assignedIdsAux_skip_middle (l1 : List Seg) :
    ∀ (u : Used) (s : Seg) (l2 : List Seg), segProcessed s = false →
      assignedIdsAux u (l1 ++ s :: l2) = assignedIdsAux u (l1 ++ l2) := by
  induction l1 with
  | nil =>
    intro u s l2 hp
    rw [List.nil_append, List.nil_append, assignedIdsAux, if_neg (by simp [hp])]
  | cons a l1 ih =>
    intro u s l2 hp
    rw [List.cons_append, List.cons_append]
    by_cases ha : segProcessed a = true
    · unfold assignedIdsAux
      rw [if_pos ha, if_pos ha, ih _ s l2 hp]
    · unfold assignedIdsAux
      rw [if_neg ha, if_neg ha, ih _ s l2 hp]

theorem addAnchorsAux_inserts (segs : List Seg) :
    ∀ (u : Used) (i : Nat) (tag attrs inner : Str),
      segs[i]? = some (.elem tag attrs inner) → testIdAttr attrs = false →
      ∃ id, (addAnchorsAux u segs)[i]? =
        some (.elem tag (attrs ++ mkIdAttr id) inner) := by
  induction segs with
  | nil => intro u i tag attrs inner h _; simp at h
  | cons s0 ss ih =>
    intro u i tag attrs inner h ht
    cases i with
    | zero =>
      rw [List.getElem?_cons_zero] at h
      obtain rfl : s0 = Seg.elem tag attrs inner := Option.some.inj h
      refine ⟨suffixId (segBase (Seg.elem tag attrs inner))
        (u (segBase (Seg.elem tag attrs inner)) + 1), ?_⟩
      rw [addAnchorsAux, List.getElem?_cons_zero]
      rw [show processSeg u (Seg.elem tag attrs inner) =
        (setUsed u (segBase (Seg.elem tag attrs inner))
            (u (segBase (Seg.elem tag attrs inner)) + 1),
          Seg.elem tag
            (attrs ++ mkIdAttr (suffixId (segBase (Seg.elem tag attrs inner))
              (u (segBase (Seg.elem tag attrs inner)) + 1))) inner) from by
        rw [processSeg, if_neg (by simp [ht])]]
    | succ j =>
      rw [List.getElem?_cons_succ] at h
      rw [addAnchorsAux, List.getElem?_cons_succ]
      exact ih _ j tag attrs inner h ht

/-- Claim C9 (confirmed): `addStableAnchorIds` is output-length preserving;
every segment it does not process — text between matches, and any matched
eligible element whose attributes already carry a non-empty id — is returned
completely unchanged at its position; an unprocessed segment anywhere in the
input does not advance any base-slug occurrence counter (deleting it leaves
the generated id stream identical); and a matched eligible element without an
id is rewritten only by appending an id attribute to its attributes, keeping
its tag and inner content. -/
theorem anchor_pass_frame :
    (∀ segs : List Seg, (addStableAnchorIds segs).length = segs.length)
    ∧ (∀ (segs : List Seg) (i : Nat) (s : Seg), segs[i]? = some s →
        segProcessed s = false → (addStableAnchorIds segs)[i]? = some s)
    ∧ (∀ (l1 : List Seg) (s : Seg) (l2 : List Seg), segProcessed s = false →
        assignedIds (l1 ++ s :: l2) = assignedIds (l1 ++ l2))
    ∧ (∀ (segs : List Seg) (i : Nat) (tag attrs inner : Str),
        segs[i]? = some (.elem tag attrs inner) → testIdAttr attrs = false →
        ∃ id, (addStableAnchorIds segs)[i]? =
          some (.elem tag (attrs ++ mkIdAttr id) inner)) :=
  ⟨fun segs => addAnchorsAux_length segs emptyUsed,
   fun segs i s h hp => addAnchorsAux_skip segs emptyUsed i s h hp,
   fun l1 s l2 hp => assignedIdsAux_skip_middle l1 emptyUsed s l2 hp,
   fun segs i tag attrs inner h ht =>
     addAnchorsAux_inserts segs emptyUsed i tag attrs inner h ht⟩

/-- Witness for C9: a text stretch and an element that already has an id pass
through a render byte-for-byte unchanged, do not disturb the ids generated for
the processed elements around them, and the id-less paragraph gets exactly an
appended id attribute. -/
theorem anchor_pass_frame_witness :
    (addStableAnchorIds [Seg.text "x".data,
        Seg.elem "p".data " id=\"k\"".data "T".data,
        Seg.elem "p".data [] "T".data])[1]? =
      some (Seg.elem "p".data " id=\"k\"".data "T".data)
    ∧ assignedIds ([Seg.elem "p".data [] "A".data] ++
        Seg.elem "p".data " id=\"k\"".data "T".data ::
          [Seg.elem "p".data [] "B".data]) =
      assignedIds ([Seg.elem "p".data [] "A".data] ++
        [Seg.elem "p".data [] "B".data])
    ∧ ∃ id, (addStableAnchorIds [Seg.text "x".data,
        Seg.elem "p".data " id=\"k\"".data "T".data,
        Seg.elem "p".data [] "T".data])[2]? =
      some (Seg.elem "p".data ([] ++ mkIdAttr id) "T".data) :=
  ⟨anchor_pass_frame.2.1 _ 1 _ (by decide) (by decide),
   anchor_pass_frame.2.2.1 _ _ _ (by decide),
   anchor_pass_frame.2.2.2 _ 2 "p".data [] "T".data (by decide) (by decide)⟩
